import Mathlib

/-!
Verification of the order-reconciliation engine of the `athenajq/mobile-app`
repository against its natural-language specification.

The reconciler is `updateOrders` in `src/redux/Actions.js` (lines 526-584); the
home-screen consumer is `src/screens/main/authenticated/HomeScreen.js`.  The
helper functions it imports from `src/constants/Schedule.js` (`getCutoffDate`,
`getValidOrderDates`, `getScheduleGroups`, `getLunchSchedule`, `isBeforeCutoff`,
`getUserLunchSchedule`) are not among the repository files provided, so their
*results* enter the embedding as explicit parameters of `updateOrders`
(`cutoffDate`, `available`, `allGroups`, `isBeforeCutoff`), and where a claim
turns on their behaviour they are modelled from the spec (marked as such).

Dates are embedded as `Nat` (ISO calendar dates are totally ordered and the
source only compares them with `isSameOrAfter`, `===` and `includes`); Firestore
documents carry an opaque payload field `extra`.  JavaScript objects keyed by
strings/numbers are embedded as association lists in insertion order, which is
the order `Object.keys`/`Object.values` iterates for the keys the source uses.
-/

namespace MobileApp

/-- `orderSchedule.scheduleType` of the source: `OrderScheduleTypes.DAILY` or
`OrderScheduleTypes.CUSTOM` (string constants in the source). -/
inductive ScheduleType
  | DAILY
  | CUSTOM
deriving DecidableEq, Repr

/-- The fields of an order-record object as `updateOrders` manipulates it:
`doc.data()` has `date`, `uid` and opaque payload (`extra`); `updateOrders`
adds `key: doc.id` and deletes `uid`.  Absent fields are `none`. -/
structure RecordFields where
  date : Nat
  uid : Option String
  extra : Nat
  key : Option String
deriving DecidableEq, Repr

/-- One document of the Firestore query snapshot: `doc.id` plus the stored
data `{date, uid, ...}`. -/
structure Doc where
  id : String
  date : Nat
  uid : String
  extra : Nat
deriving DecidableEq, Repr

/-- `doc.data()` of the source: the stored fields, no `key` yet. -/
def Doc.data (d : Doc) : RecordFields :=
  { date := d.date, uid := some d.uid, extra := d.extra, key := none }

/-- `let data = { ...doc.data(), key: doc.id }; delete data.uid;`
(src/redux/Actions.js lines 530-531). -/
def Doc.strippedData (d : Doc) : RecordFields :=
  { date := d.date, uid := none, extra := d.extra, key := some d.id }

/-- `collectionData[doc.id] = data` on a JavaScript object: overwrite in place
when the key exists (keeping its position), append otherwise. -/
def insertRecord (cd : List (String × RecordFields)) (k : String) (v : RecordFields) :
    List (String × RecordFields) :=
  if cd.any (fun p => p.1 = k) then
    cd.map (fun p => if p.1 = k then (k, v) else p)
  else
    cd ++ [(k, v)]

/-- One iteration of the `querySnapshot.forEach` loop of `updateOrders`
(lines 529-535): strip `uid`, add `key`, and keep the record iff its date
`isSameOrAfter` the cutoff boundary date. -/
def buildStep (cutoffDate : Nat) (cd : List (String × RecordFields)) (doc : Doc) :
    List (String × RecordFields) :=
  if cutoffDate ≤ doc.date then insertRecord cd doc.id doc.strippedData else cd

/-- The whole `querySnapshot.forEach` loop: `collectionData` as built from the
snapshot. -/
def buildCollectionData (snap : List Doc) (cutoffDate : Nat) :
    List (String × RecordFields) :=
  snap.foldl (buildStep cutoffDate) []

/-- `availableScheduleGroups.some((availableGroup) => availableGroup[0] === group[0])`
(line 562).  `[0]` on an empty array is `undefined`, and
`undefined === undefined` holds, so `List.head?` equality is the faithful
reading. -/
def matchesAvailable (available : List (List Nat)) (g : List Nat) : Bool :=
  available.any (fun ag => ag.head? = g.head?)

/-- `collectionData[key]` on the association list. -/
def lookupRecord (cd : List (String × RecordFields)) (k : String) : Option RecordFields :=
  (cd.find? (fun p => p.1 = k)).map Prod.snd

/-- `collectionDataKeys.filter((key) => group.includes(collectionData[key].date))`
(line 565). -/
def relevantKeysFor (cd : List (String × RecordFields)) (g : List Nat) : List String :=
  (cd.map Prod.fst).filter fun k =>
    match lookupRecord cd k with
    | some r => g.contains r.date
    | none => false

/-- Assignment `orders[i] = { ...orders[i], [date]: record }` keyed by the
record's date: overwrite in place, append otherwise. -/
def upsertDate (acc : List (Nat × RecordFields)) (d : Nat) (r : RecordFields) :
    List (Nat × RecordFields) :=
  if acc.any (fun q => q.1 = d) then
    acc.map (fun q => if q.1 = d then (d, r) else q)
  else
    acc ++ [(d, r)]

/-- The `for (const id of relevantKeys)` loop (lines 568-573): attach each
relevant record under its date. -/
def entryRecords (cd : List (String × RecordFields)) (ks : List String) :
    List (Nat × RecordFields) :=
  ks.foldl
    (fun acc k =>
      match lookupRecord cd k with
      | some r => upsertDate acc r.date r
      | none => acc)
    []

/-- One value `orders[i]` of the CUSTOM branch: `{ date: group, key: i, index,
keys: relevantKeys, [record.date]: record, ... }`. -/
structure OrderEntry where
  date : List Nat
  key : Nat
  index : Int
  keys : List String
  records : List (Nat × RecordFields)
deriving DecidableEq, Repr

/-- The `allScheduleGroups.forEach((group, i) => ...)` loop (lines 560-576):
walk the groups in order; a group matching `availableScheduleGroups` advances
the running counter; otherwise, when some surviving record's date lies in the
group, emit an `orders[i]` entry carrying the current counter value. -/
def walkGroups (cd : List (String × RecordFields)) (available : List (List Nat)) :
    List (List Nat) → Nat → Int → List (Nat × OrderEntry)
  | [], _, _ => []
  | g :: rest, i, index =>
    if matchesAvailable available g then
      walkGroups cd available rest (i + 1) (index + 1)
    else
      if (relevantKeysFor cd g).isEmpty then
        walkGroups cd available rest (i + 1) index
      else
        (i, { date := g, key := i, index := index, keys := relevantKeysFor cd g,
              records := entryRecords cd (relevantKeysFor cd g) }) ::
          walkGroups cd available rest (i + 1) index

/-- `let index = includesCutoff ? -1 : 0` where `includesCutoff =
availableScheduleGroups.length > 0 && !isBeforeCutoff(availableScheduleGroups[0], ...)`
(lines 556-559). -/
def startIndex (available : List (List Nat)) (isBeforeCutoff : List Nat → Bool) : Int :=
  match available with
  | [] => 0
  | g :: _ => if isBeforeCutoff g then 0 else -1

/-- The `orders` object `updateOrders` dispatches: either the flat
record-per-date map (DAILY schedule, or no surviving record) or the per-group
entry map of the CUSTOM branch. -/
inductive OrdersState
  | daily (records : List (String × RecordFields))
  | custom (entries : List (Nat × OrderEntry))
deriving DecidableEq, Repr

/-- `updateOrders` (src/redux/Actions.js lines 526-584).  The results of the
`Schedule.js` helpers, which are not among the repository files, enter as the
parameters `cutoffDate` (`getCutoffDate(orderSchedule)`), `available`
(`getValidOrderDates(...)`), `allGroups` (`getScheduleGroups(...)`) and
`isBeforeCutoff`. -/
def updateOrders (snap : List Doc) (scheduleType : ScheduleType) (cutoffDate : Nat)
    (available allGroups : List (List Nat)) (isBeforeCutoff : List Nat → Bool) :
    OrdersState :=
  if scheduleType = ScheduleType.CUSTOM ∧ buildCollectionData snap cutoffDate ≠ [] then
    OrdersState.custom (walkGroups (buildCollectionData snap cutoffDate) available allGroups 0
      (startIndex available isBeforeCutoff))
  else
    OrdersState.daily (buildCollectionData snap cutoffDate)

/-- Every record identifier (`doc.id`) reachable in the dispatched `orders`
state: the object keys in the DAILY shape, the `keys` arrays in the CUSTOM
shape. -/
def ordersKeys : OrdersState → List String
  | OrdersState.daily r => r.map Prod.fst
  | OrdersState.custom es => (es.map (fun e => e.2.keys)).flatten

/-- Every record value reachable in the dispatched `orders` state. -/
def ordersRecords : OrdersState → List RecordFields
  | OrdersState.daily r => r.map Prod.snd
  | OrdersState.custom es => (es.map (fun e => e.2.records.map Prod.snd)).flatten

/-- Whether the dispatched `orders` state holds no order at all. -/
def isEmptyOrders : OrdersState → Bool
  | OrdersState.daily r => r.isEmpty
  | OrdersState.custom es => es.isEmpty

/-- Modelled from the spec: `getCutoffDate(orderSchedule)` lives in
`src/constants/Schedule.js`, which is not among the repository files.  Per the
spec it is "the cutoff boundary date for the *current* cycle", and the current
cycle is located from the clock the engine reads at the invocation (the source
calls `moment()` inside `updateOrders`, lines 544 and 551, and passes no time
to `getCutoffDate`).  At day granularity the boundary of the current cycle is
the current date itself. -/
def getCutoffDate (now : Nat) (_scheduleType : ScheduleType) : Nat := now

/-- `updateOrders` together with the clock reading the engine performs
internally: the source's `updateOrders(querySnapshot, orderSchedule,
lunchSchedule)` evaluated while the device clock reads `now`. -/
def updateOrdersAt (now : Nat) (snap : List Doc) (scheduleType : ScheduleType)
    (available allGroups : List (List Nat)) (isBeforeCutoff : List Nat → Bool) :
    OrdersState :=
  updateOrders snap scheduleType (getCutoffDate now scheduleType) available allGroups
    isBeforeCutoff

/-- A non-dependent lunch-day configuration (the payload the engine consumes). -/
structure LunchConfigBase where
  schedule : List Nat
deriving DecidableEq, Repr

/-- `stateConstants.lunchSchedule`: possibly `dependent`, in which case
sub-configs are keyed by the value of one user attribute. -/
structure LunchScheduleConfig where
  dependent : Bool
  attributeKey : String
  subConfigs : List (String × LunchConfigBase)
  base : LunchConfigBase
deriving DecidableEq, Repr

/-- The typed failures of the engine's user-schedule selector. -/
inductive ScheduleError
  | UnresolvedUserSchedule
deriving DecidableEq, Repr

/-- Modelled from the spec: `getUserLunchSchedule(lunchSchedule, user)`
(imported by `src/screens/main/authenticated/HomeScreen.js` from
`src/constants/Schedule.js`, which is not among the repository files).  Per
spec section 4.5: a non-dependent config is returned unchanged; a dependent
one is resolved by looking up the sub-config keyed by the relevant user
attribute, and the resolution fails with `UnresolvedUserSchedule` when the
user's attribute value has no matching sub-config — never falling back to a
default. -/
def getUserLunchSchedule (cfg : LunchScheduleConfig) (user : List (String × String)) :
    Except ScheduleError LunchConfigBase :=
  if cfg.dependent then
    match (user.find? (fun p => p.1 = cfg.attributeKey)).map Prod.snd with
    | some v =>
      match (cfg.subConfigs.find? (fun p => p.1 = v)).map Prod.snd with
      | some sub => Except.ok sub
      | none => Except.error ScheduleError.UnresolvedUserSchedule
    | none => Except.error ScheduleError.UnresolvedUserSchedule
  else
    Except.ok cfg.base

/-- The gate of `focusOrderNavigate` in
`src/screens/main/authenticated/HomeScreen.js` (lines 65-69):
`if (index && index < 0) { Alert(...); return; }`.  `item.index` is a
JavaScript number or `undefined`; `undefined` and `0` are falsy, so the alert
fires iff the index is present, non-zero and negative. -/
def blocksEdit : Option Int → Bool
  | none => false
  | some i => decide (i ≠ 0) && decide (i < 0)

/-- The `item.index` the home screen reads off a DAILY-shape order record: the
record objects of the DAILY branch carry no `index` field, so the property
access yields `undefined`. -/
def dailyItemIndex (_r : RecordFields) : Option Int := none

/-- The `item.index` the home screen reads off a CUSTOM-shape order entry. -/
def customItemIndex (e : OrderEntry) : Option Int := some e.index

/-- The dynamic-schedule branch of `getOrdersArr`
(src/screens/main/authenticated/HomeScreen.js lines 146-156):
`Object.values(orders)` (ascending numeric key order, which is the walk's
emission order) sorted by `parseISO(orderA.date[0]).diff(orderB.date[0])`,
i.e. by first group date ascending.  The display-formatting of each entry does
not move entries, so ordering is modelled on the entries themselves. -/
def getOrdersArrCustom (entries : List (Nat × OrderEntry)) : List OrderEntry :=
  List.insertionSort (fun a b => a.date.headD 0 ≤ b.date.headD 0) (entries.map Prod.snd)

/-- A concrete snapshot document used by the concrete-input theorems. -/
def docA : Doc := { id := "a", date := 5, uid := "u", extra := 0 }

/-- A cutoff test holding every group still open, for concrete inputs. -/
def alwaysOpen : List Nat → Bool := fun _ => true

/-- The entry the reconciler emits for group `[5]` claimed by `docA` when
`availableScheduleGroups` is empty: the counter starts at 0, so the entry's
index is 0. -/
def entryA : OrderEntry :=
  { date := [5], key := 0, index := 0, keys := ["a"],
    records := [(5, { date := 5, uid := none, extra := 0, key := some "a" })] }

/- ### Association-list lemmas for the JavaScript-object embedding -/

theorem keys_map_updateKey (cd : List (String × RecordFields)) (k : String)
    (v : RecordFields) :
    (cd.map (fun p => if p.1 = k then (k, v) else p)).map Prod.fst = cd.map Prod.fst := by
  induction cd with
  | nil => rfl
  | cons p rest ih =>
    simp only [List.map_cons, ih, List.cons.injEq, and_true]
    by_cases h : p.1 = k
    · simp [h]
    · simp [h]

theorem any_key_eq (cd : List (String × RecordFields)) (k : String) :
    (cd.any fun p => p.1 = k) = true ↔ k ∈ cd.map Prod.fst := by
  simp only [List.any_eq_true, decide_eq_true_eq, List.mem_map]

theorem insertRecord_eq_update (cd : List (String × RecordFields)) (k : String)
    (v : RecordFields) (h : k ∈ cd.map Prod.fst) :
    insertRecord cd k v = cd.map (fun p => if p.1 = k then (k, v) else p) := by
  unfold insertRecord
  rw [if_pos ((any_key_eq cd k).mpr h)]

theorem insertRecord_eq_append (cd : List (String × RecordFields)) (k : String)
    (v : RecordFields) (h : k ∉ cd.map Prod.fst) :
    insertRecord cd k v = cd ++ [(k, v)] := by
  unfold insertRecord
  rw [if_neg (fun hc => h ((any_key_eq cd k).mp hc))]

theorem mem_keys_insertRecord (cd : List (String × RecordFields)) (k k' : String)
    (v : RecordFields) :
    k' ∈ (insertRecord cd k v).map Prod.fst ↔ k' ∈ cd.map Prod.fst ∨ k' = k := by
  by_cases h : k ∈ cd.map Prod.fst
  · rw [insertRecord_eq_update cd k v h, keys_map_updateKey]
    constructor
    · exact Or.inl
    · rintro (hm | rfl)
      · exact hm
      · exact h
  · rw [insertRecord_eq_append cd k v h]
    simp [eq_comm]

theorem mem_insertRecord (cd : List (String × RecordFields)) (k : String)
    (v : RecordFields) (p : String × RecordFields) (hp : p ∈ insertRecord cd k v) :
    p ∈ cd ∨ p = (k, v) := by
  by_cases h : k ∈ cd.map Prod.fst
  · rw [insertRecord_eq_update cd k v h] at hp
    rcases List.mem_map.mp hp with ⟨q, hq, hqe⟩
    by_cases hqk : q.1 = k
    · simp only [hqk, if_true] at hqe
      exact Or.inr hqe.symm
    · simp only [hqk, if_false] at hqe
      exact Or.inl (hqe ▸ hq)
  · rw [insertRecord_eq_append cd k v h] at hp
    simpa using hp

theorem mem_insertRecord_of_ne (cd : List (String × RecordFields)) (k : String)
    (v : RecordFields) (p : String × RecordFields) (hp : p ∈ cd) (hne : p.1 ≠ k) :
    p ∈ insertRecord cd k v := by
  by_cases h : k ∈ cd.map Prod.fst
  · rw [insertRecord_eq_update cd k v h]
    have : (if p.1 = k then (k, v) else p) = p := by simp [hne]
    exact this ▸ List.mem_map_of_mem _ hp
  · rw [insertRecord_eq_append cd k v h]
    exact List.mem_append_left _ hp

theorem self_mem_insertRecord (cd : List (String × RecordFields)) (k : String)
    (v : RecordFields) (h : k ∉ cd.map Prod.fst) : (k, v) ∈ insertRecord cd k v := by
  rw [insertRecord_eq_append cd k v h]
  simp

theorem keys_nodup_insertRecord (cd : List (String × RecordFields)) (k : String)
    (v : RecordFields) (h : (cd.map Prod.fst).Nodup) :
    ((insertRecord cd k v).map Prod.fst).Nodup := by
  by_cases hk : k ∈ cd.map Prod.fst
  · rw [insertRecord_eq_update cd k v hk, keys_map_updateKey]
    exact h
  · rw [insertRecord_eq_append cd k v hk]
    simp only [List.map_append, List.map_cons, List.map_nil]
    exact List.Nodup.append h (List.nodup_singleton k)
      (by simpa [List.disjoint_singleton] using hk)

/- ### The collectionData filter loop -/

theorem buildStep_pos (c : Nat) (cd : List (String × RecordFields)) (d : Doc)
    (h : c ≤ d.date) : buildStep c cd d = insertRecord cd d.id d.strippedData := by
  unfold buildStep
  rw [if_pos h]

theorem buildStep_neg (c : Nat) (cd : List (String × RecordFields)) (d : Doc)
    (h : ¬ c ≤ d.date) : buildStep c cd d = cd := by
  unfold buildStep
  rw [if_neg h]

theorem mem_keys_foldl_build (c : Nat) (snap : List Doc) :
    ∀ (acc : List (String × RecordFields)) (k : String),
      k ∈ (snap.foldl (buildStep c) acc).map Prod.fst ↔
        k ∈ acc.map Prod.fst ∨ ∃ d ∈ snap, d.id = k ∧ c ≤ d.date := by
  induction snap with
  | nil =>
    intro acc k
    simp
  | cons d ds ih =>
    intro acc k
    rw [List.foldl_cons]
    by_cases hc : c ≤ d.date
    · rw [buildStep_pos c acc d hc, ih, mem_keys_insertRecord]
      constructor
      · rintro ((hm | rfl) | ⟨d', hd', rfl, hc'⟩)
        · exact Or.inl hm
        · exact Or.inr ⟨d, List.mem_cons_self d ds, rfl, hc⟩
        · exact Or.inr ⟨d', List.mem_cons_of_mem d hd', rfl, hc'⟩
      · rintro (hm | ⟨d', hd', rfl, hc'⟩)
        · exact Or.inl (Or.inl hm)
        · rcases List.mem_cons.mp hd' with rfl | hd''
          · exact Or.inl (Or.inr rfl)
          · exact Or.inr ⟨d', hd'', rfl, hc'⟩
    · rw [buildStep_neg c acc d hc, ih]
      constructor
      · rintro (hm | ⟨d', hd', rfl, hc'⟩)
        · exact Or.inl hm
        · exact Or.inr ⟨d', List.mem_cons_of_mem d hd', rfl, hc'⟩
      · rintro (hm | ⟨d', hd', rfl, hc'⟩)
        · exact Or.inl hm
        · rcases List.mem_cons.mp hd' with rfl | hd''
          · exact absurd hc' hc
          · exact Or.inr ⟨d', hd'', rfl, hc'⟩

theorem mem_keys_buildCollectionData (snap : List Doc) (c : Nat) (k : String) :
    k ∈ (buildCollectionData snap c).map Prod.fst ↔
      ∃ d ∈ snap, d.id = k ∧ c ≤ d.date := by
  unfold buildCollectionData
  rw [mem_keys_foldl_build]
  simp

theorem mem_foldl_build (c : Nat) (snap : List Doc) :
    ∀ (acc : List (String × RecordFields)) (p : String × RecordFields),
      p ∈ snap.foldl (buildStep c) acc →
        p ∈ acc ∨ ∃ d ∈ snap, p = (d.id, d.strippedData) ∧ c ≤ d.date := by
  induction snap with
  | nil =>
    intro acc p hp
    exact Or.inl hp
  | cons d ds ih =>
    intro acc p hp
    rw [List.foldl_cons] at hp
    rcases ih _ p hp with hacc | ⟨d', hd', he, hc'⟩
    · by_cases hc : c ≤ d.date
      · rw [buildStep_pos c acc d hc] at hacc
        rcases mem_insertRecord _ _ _ _ hacc with h1 | h1
        · exact Or.inl h1
        · exact Or.inr ⟨d, List.mem_cons_self d ds, h1, hc⟩
      · rw [buildStep_neg c acc d hc] at hacc
        exact Or.inl hacc
    · exact Or.inr ⟨d', List.mem_cons_of_mem d hd', he, hc'⟩

theorem mem_buildCollectionData (snap : List Doc) (c : Nat) (p : String × RecordFields)
    (hp : p ∈ buildCollectionData snap c) :
    ∃ d ∈ snap, p = (d.id, d.strippedData) ∧ c ≤ d.date := by
  rcases mem_foldl_build c snap [] p hp with h | h
  · exact absurd h (List.not_mem_nil p)
  · exact h

theorem keys_nodup_foldl_build (c : Nat) (snap : List Doc) :
    ∀ acc, (acc.map Prod.fst).Nodup →
      ((snap.foldl (buildStep c) acc).map Prod.fst).Nodup := by
  induction snap with
  | nil =>
    intro acc h
    exact h
  | cons d ds ih =>
    intro acc h
    rw [List.foldl_cons]
    apply ih
    by_cases hc : c ≤ d.date
    · rw [buildStep_pos c acc d hc]
      exact keys_nodup_insertRecord _ _ _ h
    · rw [buildStep_neg c acc d hc]
      exact h

theorem keys_nodup_buildCollectionData (snap : List Doc) (c : Nat) :
    ((buildCollectionData snap c).map Prod.fst).Nodup :=
  keys_nodup_foldl_build c snap [] (by simp)

theorem mem_foldl_build_of_mem (c : Nat) (snap : List Doc) :
    ∀ acc (p : String × RecordFields), p ∈ acc → (∀ d ∈ snap, d.id ≠ p.1) →
      p ∈ snap.foldl (buildStep c) acc := by
  induction snap with
  | nil =>
    intro acc p hp _
    exact hp
  | cons d ds ih =>
    intro acc p hp hne
    rw [List.foldl_cons]
    apply ih
    · by_cases hc : c ≤ d.date
      · rw [buildStep_pos c acc d hc]
        exact mem_insertRecord_of_ne _ _ _ _ hp
          (fun he => hne d (List.mem_cons_self d ds) he.symm)
      · rw [buildStep_neg c acc d hc]
        exact hp
    · intro d' hd'
      exact hne d' (List.mem_cons_of_mem d hd')

theorem pair_mem_foldl_build (c : Nat) (snap : List Doc) :
    ∀ acc, (∀ d ∈ snap, d.id ∉ acc.map Prod.fst) → (snap.map Doc.id).Nodup →
      ∀ d ∈ snap, c ≤ d.date → (d.id, d.strippedData) ∈ snap.foldl (buildStep c) acc := by
  induction snap with
  | nil =>
    intro acc _ _ d hd
    exact absurd hd (List.not_mem_nil d)
  | cons e ds ih =>
    intro acc hfresh hnd d hd hc
    have hnd2 : (e.id :: ds.map Doc.id).Nodup := by simpa using hnd
    have hcons := List.nodup_cons.mp hnd2
    rw [List.foldl_cons]
    rcases List.mem_cons.mp hd with rfl | hd'
    · have hstep : (d.id, d.strippedData) ∈ buildStep c acc d := by
        rw [buildStep_pos c acc d hc]
        exact self_mem_insertRecord _ _ _ (hfresh d (List.mem_cons_self d ds))
      apply mem_foldl_build_of_mem c ds _ _ hstep
      intro d' hd' heq
      have heq' : d'.id = d.id := heq
      exact hcons.1 (heq' ▸ List.mem_map_of_mem Doc.id hd')
    · apply ih
      · intro d'' hd'' hmem
        by_cases hce : c ≤ e.date
        · rw [buildStep_pos c acc e hce] at hmem
          rcases (mem_keys_insertRecord _ _ _ _).mp hmem with hk | hk
          · exact hfresh d'' (List.mem_cons_of_mem e hd'') hk
          · exact hcons.1 (hk ▸ List.mem_map_of_mem Doc.id hd'')
        · rw [buildStep_neg c acc e hce] at hmem
          exact hfresh d'' (List.mem_cons_of_mem e hd'') hmem
      · exact hcons.2
      · exact hd'
      · exact hc

theorem pair_mem_buildCollectionData (snap : List Doc) (c : Nat)
    (hnd : (snap.map Doc.id).Nodup) (d : Doc) (hd : d ∈ snap) (hc : c ≤ d.date) :
    (d.id, d.strippedData) ∈ buildCollectionData snap c :=
  pair_mem_foldl_build c snap [] (by simp) hnd d hd hc

/- ### Lookup and the relevant-keys filter -/

theorem lookupRecord_mem (cd : List (String × RecordFields)) (k : String)
    (r : RecordFields) (h : lookupRecord cd k = some r) : (k, r) ∈ cd := by
  unfold lookupRecord at h
  rcases ho : cd.find? (fun p => p.1 = k) with _ | p
  · rw [ho] at h
    exact absurd h (by simp)
  · rw [ho] at h
    have hm := List.mem_of_find?_eq_some ho
    have hk0 := List.find?_some ho
    have hk : p.1 = k := by simpa using hk0
    obtain ⟨a, b⟩ := p
    obtain rfl : b = r := by simpa using h
    obtain rfl : a = k := hk
    exact hm

theorem lookupRecord_eq_some_of_mem (cd : List (String × RecordFields))
    (hnd : (cd.map Prod.fst).Nodup) (k : String) (r : RecordFields)
    (h : (k, r) ∈ cd) : lookupRecord cd k = some r := by
  induction cd with
  | nil => exact absurd h (List.not_mem_nil _)
  | cons p rest ih =>
    rw [List.map_cons, List.nodup_cons] at hnd
    rcases List.mem_cons.mp h with he | htail
    · unfold lookupRecord
      rw [List.find?_cons_of_pos _ (by simp [← he])]
      simp [← he]
    · by_cases hk : p.1 = k
      · have hkm : k ∈ rest.map Prod.fst := List.mem_map_of_mem Prod.fst htail
        exact absurd (show p.1 ∈ rest.map Prod.fst by rwa [hk]) hnd.1
      · unfold lookupRecord
        rw [List.find?_cons_of_neg _ (by simp [hk])]
        exact ih hnd.2 htail

/- ### The group walk of the CUSTOM branch -/

theorem walk_mem_shape (cd : List (String × RecordFields)) (av : List (List Nat)) :
    ∀ (groups : List (List Nat)) (i0 : Nat) (idx : Int) (p : Nat × OrderEntry),
      p ∈ walkGroups cd av groups i0 idx →
      i0 ≤ p.1 ∧ ∃ g, groups.get? (p.1 - i0) = some g ∧
        matchesAvailable av g = false ∧ (relevantKeysFor cd g).isEmpty = false ∧
        p.2.date = g ∧ p.2.key = p.1 ∧ p.2.keys = relevantKeysFor cd g ∧
        p.2.records = entryRecords cd (relevantKeysFor cd g) ∧
        p.2.index = idx + ((groups.take (p.1 - i0)).filter
          (fun x => matchesAvailable av x)).length := by
  intro groups
  induction groups with
  | nil =>
    intro i0 idx p hp
    simp [walkGroups] at hp
  | cons g rest ih =>
    intro i0 idx p hp
    rw [walkGroups] at hp
    by_cases hm : matchesAvailable av g = true
    · rw [if_pos hm] at hp
      obtain ⟨h1, g', hg', hm', hrk', hdate, hkey, hkeys, hrecs, hidx⟩ := ih (i0 + 1) (idx + 1) p hp
      have hle : i0 ≤ p.1 := by omega
      have hj : p.1 - i0 = (p.1 - (i0 + 1)) + 1 := by omega
      refine ⟨hle, g', ?_, hm', hrk', hdate, hkey, hkeys, hrecs, ?_⟩
      · rw [hj, List.get?_cons_succ]
        exact hg'
      · have hcount : (((g :: rest).take (p.1 - i0)).filter
            (fun x => matchesAvailable av x)).length
            = ((rest.take (p.1 - (i0 + 1))).filter (fun x => matchesAvailable av x)).length
              + 1 := by
          rw [hj, List.take_succ_cons, List.filter_cons_of_pos hm, List.length_cons]
        rw [hcount, hidx]
        push_cast
        ring
    · rw [if_neg hm] at hp
      by_cases hrk : (relevantKeysFor cd g).isEmpty = true
      · rw [if_pos hrk] at hp
        obtain ⟨h1, g', hg', hm', hrk', hdate, hkey, hkeys, hrecs, hidx⟩ :=
          ih (i0 + 1) idx p hp
        have hle : i0 ≤ p.1 := by omega
        have hj : p.1 - i0 = (p.1 - (i0 + 1)) + 1 := by omega
        refine ⟨hle, g', ?_, hm', hrk', hdate, hkey, hkeys, hrecs, ?_⟩
        · rw [hj, List.get?_cons_succ]
          exact hg'
        · have hcount : (((g :: rest).take (p.1 - i0)).filter
              (fun x => matchesAvailable av x)).length
              = ((rest.take (p.1 - (i0 + 1))).filter (fun x => matchesAvailable av x)).length := by
            rw [hj, List.take_succ_cons, List.filter_cons_of_neg (by simp [hm])]
          rw [hcount, hidx]
      · rw [if_neg hrk] at hp
        rcases List.mem_cons.mp hp with rfl | hp'
        · refine ⟨Nat.le_refl i0, g, ?_, ?_, ?_, rfl, rfl, rfl, rfl, ?_⟩
          · simp
          · exact Bool.not_eq_true _ ▸ (by simpa using hm)
          · exact Bool.not_eq_true _ ▸ (by simpa using hrk)
          · simp
        · obtain ⟨h1, g', hg', hm', hrk', hdate, hkey, hkeys, hrecs, hidx⟩ :=
            ih (i0 + 1) idx p hp'
          have hle : i0 ≤ p.1 := by omega
          have hj : p.1 - i0 = (p.1 - (i0 + 1)) + 1 := by omega
          refine ⟨hle, g', ?_, hm', hrk', hdate, hkey, hkeys, hrecs, ?_⟩
          · rw [hj, List.get?_cons_succ]
            exact hg'
          · have hcount : (((g :: rest).take (p.1 - i0)).filter
                (fun x => matchesAvailable av x)).length
                = ((rest.take (p.1 - (i0 + 1))).filter
                    (fun x => matchesAvailable av x)).length := by
              rw [hj, List.take_succ_cons, List.filter_cons_of_neg (by simp [hm])]
            rw [hcount, hidx]

theorem walk_mem_le (cd : List (String × RecordFields)) (av : List (List Nat))
    (groups : List (List Nat)) (i0 : Nat) (idx : Int) (p : Nat × OrderEntry)
    (hp : p ∈ walkGroups cd av groups i0 idx) : i0 ≤ p.1 :=
  (walk_mem_shape cd av groups i0 idx p hp).1

theorem walk_pairwise (cd : List (String × RecordFields)) (av : List (List Nat)) :
    ∀ (groups : List (List Nat)) (i0 : Nat) (idx : Int),
      List.Pairwise (fun p q => p.1 < q.1) (walkGroups cd av groups i0 idx) := by
  intro groups
  induction groups with
  | nil =>
    intro i0 idx
    simp [walkGroups]
  | cons g rest ih =>
    intro i0 idx
    rw [walkGroups]
    by_cases hm : matchesAvailable av g = true
    · rw [if_pos hm]
      exact ih (i0 + 1) (idx + 1)
    · rw [if_neg hm]
      by_cases hrk : (relevantKeysFor cd g).isEmpty = true
      · rw [if_pos hrk]
        exact ih (i0 + 1) idx
      · rw [if_neg hrk]
        refine List.Pairwise.cons ?_ (ih (i0 + 1) idx)
        intro q hq
        have hle := walk_mem_le cd av rest (i0 + 1) idx q hq
        show i0 < q.1
        omega

theorem walk_entry_at (cd : List (String × RecordFields)) (av : List (List Nat)) :
    ∀ (groups : List (List Nat)) (i0 : Nat) (idx : Int) (j : Nat) (g : List Nat),
      groups.get? j = some g → matchesAvailable av g = false →
      (relevantKeysFor cd g).isEmpty = false →
      ∃ e : OrderEntry, (i0 + j, e) ∈ walkGroups cd av groups i0 idx ∧
        e.date = g ∧ e.keys = relevantKeysFor cd g ∧
        e.index = idx + ((groups.take j).filter (fun x => matchesAvailable av x)).length := by
  intro groups
  induction groups with
  | nil =>
    intro i0 idx j g hg
    simp at hg
  | cons g0 rest ih =>
    intro i0 idx j g hg hm hrk
    cases j with
    | zero =>
      rw [List.get?_cons_zero, Option.some_inj] at hg
      subst hg
      rw [walkGroups, if_neg (by simp [hm]), if_neg (by simp [hrk])]
      refine ⟨_, List.mem_cons_self _ _, rfl, rfl, ?_⟩
      simp
    | succ j' =>
      rw [List.get?_cons_succ] at hg
      rw [walkGroups]
      by_cases hm0 : matchesAvailable av g0 = true
      · rw [if_pos hm0]
        obtain ⟨e, hmem, hdate, hkeys, hidx⟩ := ih (i0 + 1) (idx + 1) j' g hg hm hrk
        refine ⟨e, ?_, hdate, hkeys, ?_⟩
        · have harith : i0 + (j' + 1) = (i0 + 1) + j' := by omega
          rw [harith]
          exact hmem
        · have hcount : (((g0 :: rest).take (j' + 1)).filter
              (fun x => matchesAvailable av x)).length
              = ((rest.take j').filter (fun x => matchesAvailable av x)).length + 1 := by
            rw [List.take_succ_cons, List.filter_cons_of_pos hm0, List.length_cons]
          rw [hidx, hcount]
          push_cast
          ring
      · rw [if_neg hm0]
        have hcount : (((g0 :: rest).take (j' + 1)).filter
            (fun x => matchesAvailable av x)).length
            = ((rest.take j').filter (fun x => matchesAvailable av x)).length := by
          rw [List.take_succ_cons, List.filter_cons_of_neg (by simp [hm0])]
        by_cases hrk0 : (relevantKeysFor cd g0).isEmpty = true
        · rw [if_pos hrk0]
          obtain ⟨e, hmem, hdate, hkeys, hidx⟩ := ih (i0 + 1) idx j' g hg hm hrk
          refine ⟨e, ?_, hdate, hkeys, ?_⟩
          · have harith : i0 + (j' + 1) = (i0 + 1) + j' := by omega
            rw [harith]
            exact hmem
          · rw [hidx, hcount]
        · rw [if_neg hrk0]
          obtain ⟨e, hmem, hdate, hkeys, hidx⟩ := ih (i0 + 1) idx j' g hg hm hrk
          refine ⟨e, ?_, hdate, hkeys, ?_⟩
          · have harith : i0 + (j' + 1) = (i0 + 1) + j' := by omega
            rw [harith]
            exact List.mem_cons_of_mem _ hmem
          · rw [hidx, hcount]

theorem isEmpty_false_of_mem {α : Type} {l : List α} {a : α} (h : a ∈ l) :
    l.isEmpty = false := by
  cases l with
  | nil => exact absurd h (List.not_mem_nil a)
  | cons x xs => rfl

theorem updateOrders_eq_custom (snap : List Doc) (c : Nat)
    (av gs : List (List Nat)) (ibc : List Nat → Bool)
    (h : buildCollectionData snap c ≠ []) :
    updateOrders snap ScheduleType.CUSTOM c av gs ibc =
      OrdersState.custom (walkGroups (buildCollectionData snap c) av gs 0
        (startIndex av ibc)) := by
  unfold updateOrders
  rw [if_pos ⟨rfl, h⟩]

theorem updateOrders_eq_daily (snap : List Doc) (st : ScheduleType) (c : Nat)
    (av gs : List (List Nat)) (ibc : List Nat → Bool)
    (h : ¬ (st = ScheduleType.CUSTOM ∧ buildCollectionData snap c ≠ [])) :
    updateOrders snap st c av gs ibc =
      OrdersState.daily (buildCollectionData snap c) := by
  unfold updateOrders
  rw [if_neg h]

theorem mem_relevantKeysFor (cd : List (String × RecordFields)) (g : List Nat)
    (k : String) :
    k ∈ relevantKeysFor cd g ↔ ∃ r, lookupRecord cd k = some r ∧ r.date ∈ g := by
  unfold relevantKeysFor
  rw [List.mem_filter]
  constructor
  · rintro ⟨hk, hp⟩
    rcases ho : lookupRecord cd k with _ | r
    · rw [ho] at hp
      exact absurd hp (by simp)
    · rw [ho] at hp
      refine ⟨r, rfl, ?_⟩
      simpa using hp
  · rintro ⟨r, ho, hd⟩
    refine ⟨List.mem_map_of_mem Prod.fst (lookupRecord_mem cd k r ho), ?_⟩
    rw [ho]
    simpa using hd

/- ### Record provenance through the per-entry record map -/

theorem mem_upsertDate (acc : List (Nat × RecordFields)) (d : Nat) (r : RecordFields)
    (q : Nat × RecordFields) (hq : q ∈ upsertDate acc d r) : q ∈ acc ∨ q = (d, r) := by
  unfold upsertDate at hq
  by_cases h : acc.any (fun x => x.1 = d)
  · rw [if_pos h] at hq
    rcases List.mem_map.mp hq with ⟨x, hx, hxe⟩
    by_cases hxd : x.1 = d
    · simp only [hxd, if_true] at hxe
      exact Or.inr hxe.symm
    · simp only [hxd, if_false] at hxe
      exact Or.inl (hxe ▸ hx)
  · rw [if_neg h] at hq
    simpa using hq

theorem mem_entryRecords (cd : List (String × RecordFields)) :
    ∀ (ks : List String) (acc : List (Nat × RecordFields)) (q : Nat × RecordFields),
      q ∈ ks.foldl
        (fun acc k =>
          match lookupRecord cd k with
          | some r => upsertDate acc r.date r
          | none => acc) acc →
      q ∈ acc ∨ ∃ k, lookupRecord cd k = some q.2 := by
  intro ks
  induction ks with
  | nil =>
    intro acc q hq
    exact Or.inl hq
  | cons k ks ih =>
    intro acc q hq
    rw [List.foldl_cons] at hq
    rcases ih _ q hq with hacc | hrest
    · rcases ho : lookupRecord cd k with _ | r
      · rw [ho] at hacc
        exact Or.inl hacc
      · rw [ho] at hacc
        rcases mem_upsertDate _ _ _ _ hacc with h1 | h1
        · exact Or.inl h1
        · exact Or.inr ⟨k, by rw [ho, h1]⟩
    · exact Or.inr hrest

theorem entryRecords_provenance (cd : List (String × RecordFields)) (ks : List String)
    (q : Nat × RecordFields) (hq : q ∈ entryRecords cd ks) :
    ∃ k, lookupRecord cd k = some q.2 := by
  rcases mem_entryRecords cd ks [] q hq with h | h
  · exact absurd h (List.not_mem_nil q)
  · exact h

/- ### Output keys come from the surviving records -/

theorem ordersKeys_subset (snap : List Doc) (st : ScheduleType) (c : Nat)
    (av gs : List (List Nat)) (ibc : List Nat → Bool) (k : String)
    (hk : k ∈ ordersKeys (updateOrders snap st c av gs ibc)) :
    k ∈ (buildCollectionData snap c).map Prod.fst := by
  unfold updateOrders at hk
  by_cases hcond : st = ScheduleType.CUSTOM ∧ buildCollectionData snap c ≠ []
  · rw [if_pos hcond] at hk
    unfold ordersKeys at hk
    rw [List.mem_flatten] at hk
    obtain ⟨l, hl, hkl⟩ := hk
    rw [List.mem_map] at hl
    obtain ⟨p, hp, rfl⟩ := hl
    obtain ⟨_, g, _, _, _, _, _, hkeys, _, _⟩ := walk_mem_shape _ _ _ _ _ p hp
    rw [hkeys] at hkl
    rcases (mem_relevantKeysFor _ _ _).mp hkl with ⟨r, ho, _⟩
    exact List.mem_map_of_mem Prod.fst (lookupRecord_mem _ _ _ ho)
  · rw [if_neg hcond] at hk
    simpa [ordersKeys] using hk

/- ### The uid field never reaches the orders state -/

theorem buildCollectionData_uid_change (c : Nat) (f : Doc → String) (snap : List Doc) :
    buildCollectionData (snap.map (fun d => { d with uid := f d })) c =
      buildCollectionData snap c := by
  unfold buildCollectionData
  rw [List.foldl_map]
  rfl

theorem cd_uid_none (snap : List Doc) (c : Nat) (p : String × RecordFields)
    (hp : p ∈ buildCollectionData snap c) : p.2.uid = none := by
  obtain ⟨d, _, he, _⟩ := mem_buildCollectionData snap c p hp
  rw [he]
  rfl

/- ## The claims -/

/-- C10: on the home screen, tapping an order blocks editing with the
"too late" alert iff the order's `index` is defined, non-zero and negative;
an order with index 0, or with no `index` at all — in particular every
DAILY-shape order record, whose objects carry no `index` field — always
proceeds to the edit screen. -/
theorem C10_too_late_gate (idx : Option Int) :
    (blocksEdit idx = true ↔ ∃ i : Int, idx = some i ∧ i ≠ 0 ∧ i < 0) ∧
    blocksEdit (some 0) = false ∧
    (∀ r : RecordFields, blocksEdit (dailyItemIndex r) = false) ∧
    (∀ e : OrderEntry, blocksEdit (customItemIndex e) = true ↔ e.index < 0) := by
  refine ⟨?_, rfl, fun r => rfl, fun e => ?_⟩
  · cases idx with
    | none => simp [blocksEdit]
    | some i =>
      simp only [blocksEdit, Bool.and_eq_true, decide_eq_true_eq]
      constructor
      · rintro ⟨h1, h2⟩
        exact ⟨i, rfl, h1, h2⟩
      · rintro ⟨j, hj, h1, h2⟩
        obtain rfl := Option.some_inj.mp hj
        exact ⟨h1, h2⟩
  · simp only [customItemIndex, blocksEdit, Bool.and_eq_true, decide_eq_true_eq]
    constructor
    · rintro ⟨_, h⟩
      exact h
    · intro h
      exact ⟨by omega, h⟩

/-- C7: when the lunch schedule configuration is dependent, resolving the
effective configuration for a user whose attribute value has no matching
sub-config fails with `UnresolvedUserSchedule` — it never returns a fallback
configuration. -/
theorem C7_unresolved_user_schedule (cfg : LunchScheduleConfig)
    (user : List (String × String)) (v : String)
    (hdep : cfg.dependent = true)
    (hval : (user.find? (fun p => p.1 = cfg.attributeKey)).map Prod.snd = some v)
    (hmiss : ∀ p ∈ cfg.subConfigs, p.1 ≠ v) :
    getUserLunchSchedule cfg user = Except.error ScheduleError.UnresolvedUserSchedule := by
  unfold getUserLunchSchedule
  rw [if_pos hdep, hval]
  have hnone : cfg.subConfigs.find? (fun p => p.1 = v) = none := by
    rw [List.find?_eq_none]
    intro p hp
    simp [hmiss p hp]
  simp [hnone]

/-- C7 witness: sub-configs keyed `siteA`/`siteB`, a user at `siteC`. -/
theorem C7_unresolved_user_schedule_witness :
    getUserLunchSchedule
      { dependent := true, attributeKey := "site",
        subConfigs := [("siteA", { schedule := [1] }), ("siteB", { schedule := [2] })],
        base := { schedule := [] } }
      [("site", "siteC")] = Except.error ScheduleError.UnresolvedUserSchedule :=
  C7_unresolved_user_schedule _ _ "siteC" rfl rfl (by decide)

/-- C3 counterexample: the claim says `now` is injected by the caller and
never read internally, so the output is a function of the snapshot and the
two schedule configurations alone.  The source reads the clock inside
`updateOrders` (`moment()` at lines 544 and 551, and `getCutoffDate` is given
no time): two invocations with identical snapshot, order schedule and lunch
schedule but different internal clock readings differ — at `now = 5` the
record dated 5 survives the cutoff filter, at `now = 6` it is discarded. -/
theorem C3_clock_read_internally_cex :
    updateOrdersAt 5 [docA] ScheduleType.DAILY [] [] alwaysOpen ≠
      updateOrdersAt 6 [docA] ScheduleType.DAILY [] [] alwaysOpen := by
  decide

/-- C3 amended: reconciliation is deterministic and idempotent once the
internally-read clock is fixed: two invocations agreeing on the snapshot, the
schedule type, the helper data and the clock reading produce identical
outputs. -/
theorem C3_deterministic_fixed_clock (now now' : Nat) (snap snap' : List Doc)
    (st st' : ScheduleType) (av av' gs gs' : List (List Nat))
    (ibc ibc' : List Nat → Bool)
    (h1 : now = now') (h2 : snap = snap') (h3 : st = st') (h4 : av = av')
    (h5 : gs = gs') (h6 : ibc = ibc') :
    updateOrdersAt now snap st av gs ibc = updateOrdersAt now' snap' st' av' gs' ibc' := by
  rw [h1, h2, h3, h4, h5, h6]

/-- C3 witness: the amended determinism at a concrete repeated invocation. -/
theorem C3_deterministic_fixed_clock_witness :
    updateOrdersAt 5 [docA] ScheduleType.DAILY [] [] alwaysOpen =
      updateOrdersAt 5 [docA] ScheduleType.DAILY [] [] alwaysOpen :=
  C3_deterministic_fixed_clock 5 5 [docA] [docA] ScheduleType.DAILY ScheduleType.DAILY
    [] [] [] [] alwaysOpen alwaysOpen rfl rfl rfl rfl rfl rfl

/-- C6: the reconciler never fails on no-data conditions: an empty snapshot
dispatches an empty orders state (every group left unclaimed), an empty group
sequence yields an empty result, and a record whose date lies in no group of
`allGroups` appears in no entry — orphans are ignored, not errors (the
embedding is a total function). -/
theorem C6_no_data_silent (snap : List Doc) (st : ScheduleType) (c : Nat)
    (av gs : List (List Nat)) (ibc : List Nat → Bool) :
    updateOrders [] st c av gs ibc = OrdersState.daily [] ∧
    isEmptyOrders (updateOrders snap ScheduleType.CUSTOM c av [] ibc) = true ∧
    (∀ entries, updateOrders snap st c av gs ibc = OrdersState.custom entries →
      ∀ p ∈ entries, ∀ k ∈ p.2.keys,
        ∃ r g, lookupRecord (buildCollectionData snap c) k = some r ∧
          g ∈ gs ∧ r.date ∈ g) := by
  refine ⟨?_, ?_, ?_⟩
  · rw [updateOrders_eq_daily [] st c av gs ibc (by simp [buildCollectionData])]
    rfl
  · by_cases h : buildCollectionData snap c ≠ []
    · rw [updateOrders_eq_custom snap c av [] ibc h]
      rfl
    · rw [updateOrders_eq_daily snap ScheduleType.CUSTOM c av [] ibc
        (fun hc => h hc.2)]
      push_neg at h
      simp [isEmptyOrders, h]
  · intro entries heq p hp k hk
    by_cases hcond : st = ScheduleType.CUSTOM ∧ buildCollectionData snap c ≠ []
    · unfold updateOrders at heq
      rw [if_pos hcond] at heq
      injection heq with heq'
      subst heq'
      obtain ⟨_, g, hg, _, _, _, _, hkeys, _, _⟩ := walk_mem_shape _ _ _ _ _ p hp
      rw [hkeys] at hk
      obtain ⟨r, ho, hdg⟩ := (mem_relevantKeysFor _ _ _).mp hk
      exact ⟨r, g, ho, List.get?_mem hg, hdg⟩
    · rw [updateOrders_eq_daily snap st c av gs ibc hcond] at heq
      exact absurd heq (by simp)

/-- C2: every order record dated strictly before the cutoff boundary date is
excluded from the reconciled output entirely — its id is neither a key of the
surviving collection nor reachable anywhere in the dispatched orders state —
and every record dated on or after the boundary survives the filter into the
surviving collection. -/
theorem C2_cutoff_filter (snap : List Doc) (st : ScheduleType) (c : Nat)
    (av gs : List (List Nat)) (ibc : List Nat → Bool)
    (hnd : (snap.map Doc.id).Nodup) :
    ∀ d ∈ snap,
      (d.date < c → d.id ∉ (buildCollectionData snap c).map Prod.fst ∧
        d.id ∉ ordersKeys (updateOrders snap st c av gs ibc)) ∧
      (c ≤ d.date → (d.id, d.strippedData) ∈ buildCollectionData snap c) := by
  intro d hd
  constructor
  · intro hlt
    have hnotkey : d.id ∉ (buildCollectionData snap c).map Prod.fst := by
      intro hmem
      obtain ⟨d', hd', hid, hc'⟩ := (mem_keys_buildCollectionData snap c d.id).mp hmem
      obtain rfl : d' = d := List.inj_on_of_nodup_map hnd hd' hd hid
      omega
    exact ⟨hnotkey, fun hmem =>
      hnotkey (ordersKeys_subset snap st c av gs ibc d.id hmem)⟩
  · intro hge
    exact pair_mem_buildCollectionData snap c hnd d hd hge

/-- C2 witness: a surviving record at the boundary and a stale one below it. -/
theorem C2_cutoff_filter_witness :
    (docA.id, docA.strippedData) ∈ buildCollectionData [docA] 4 ∧
    docA.id ∉ ordersKeys (updateOrders [docA] ScheduleType.DAILY 6 [] [] alwaysOpen) :=
  ⟨((C2_cutoff_filter [docA] ScheduleType.DAILY 4 [] [] alwaysOpen (by decide))
      docA (by decide)).2 (by decide),
   (((C2_cutoff_filter [docA] ScheduleType.DAILY 6 [] [] alwaysOpen (by decide))
      docA (by decide)).1 (by decide)).2⟩

/-- C8: the reconciler deletes `uid` from every record before it enters the
orders state — every record reachable in the dispatched output has no `uid` —
and two snapshots differing only in their records' `uid` values reconcile to
identical outputs. -/
theorem C8_uid_stripped (snap : List Doc) (st : ScheduleType) (c : Nat)
    (av gs : List (List Nat)) (ibc : List Nat → Bool) :
    (∀ r ∈ ordersRecords (updateOrders snap st c av gs ibc), r.uid = none) ∧
    (∀ f : Doc → String,
      updateOrders (snap.map (fun d => { d with uid := f d })) st c av gs ibc =
        updateOrders snap st c av gs ibc) := by
  constructor
  · intro r hr
    unfold updateOrders at hr
    by_cases hcond : st = ScheduleType.CUSTOM ∧ buildCollectionData snap c ≠ []
    · rw [if_pos hcond] at hr
      unfold ordersRecords at hr
      rw [List.mem_flatten] at hr
      obtain ⟨l, hl, hrl⟩ := hr
      obtain ⟨p, hp, rfl⟩ := List.mem_map.mp hl
      obtain ⟨q, hq, rfl⟩ := List.mem_map.mp hrl
      obtain ⟨_, g, _, _, _, _, _, _, hrecs, _⟩ := walk_mem_shape _ _ _ _ _ p hp
      rw [hrecs] at hq
      obtain ⟨k, ho⟩ := entryRecords_provenance _ _ q hq
      exact cd_uid_none snap c (k, q.2) (lookupRecord_mem _ _ _ ho)
    · rw [if_neg hcond] at hr
      simp only [ordersRecords] at hr
      obtain ⟨p, hp, rfl⟩ := List.mem_map.mp hr
      exact cd_uid_none snap c p hp
  · intro f
    unfold updateOrders
    rw [buildCollectionData_uid_change]

theorem exists_mem_of_isEmpty_false {α : Type} {l : List α} (h : l.isEmpty = false) :
    ∃ a, a ∈ l := by
  cases l with
  | nil => exact absurd h (by simp)
  | cons x xs => exact ⟨x, List.mem_cons_self x xs⟩

/-- C9: the CUSTOM reconciliation output holds an entry at position `j` iff
the group at `j` is claimed: it does not match an available group and some
surviving record's date lies in it.  Groups with no matching surviving record
never appear as entries; available groups are represented only through the
counter they advance. -/
theorem C9_entries_exactly_claimed (snap : List Doc) (c : Nat)
    (av gs : List (List Nat)) (ibc : List Nat → Bool)
    (entries : List (Nat × OrderEntry))
    (heq : updateOrders snap ScheduleType.CUSTOM c av gs ibc =
      OrdersState.custom entries) :
    ∀ j : Nat, (∃ e, (j, e) ∈ entries) ↔
      ∃ g, gs.get? j = some g ∧ matchesAvailable av g = false ∧
        ∃ k r, lookupRecord (buildCollectionData snap c) k = some r ∧ r.date ∈ g := by
  intro j
  by_cases hcond : ScheduleType.CUSTOM = ScheduleType.CUSTOM ∧
    buildCollectionData snap c ≠ []
  · unfold updateOrders at heq
    rw [if_pos hcond] at heq
    injection heq with heq'
    subst heq'
    constructor
    · rintro ⟨e, he⟩
      obtain ⟨_, g, hg, hm, hrk, _, _, _, _, _⟩ := walk_mem_shape _ _ _ _ _ (j, e) he
      refine ⟨g, hg, hm, ?_⟩
      obtain ⟨k, hk⟩ := exists_mem_of_isEmpty_false hrk
      obtain ⟨r, ho, hd⟩ := (mem_relevantKeysFor _ _ _).mp hk
      exact ⟨k, r, ho, hd⟩
    · rintro ⟨g, hg, hm, k, r, ho, hd⟩
      have hkmem : k ∈ relevantKeysFor (buildCollectionData snap c) g :=
        (mem_relevantKeysFor _ _ _).mpr ⟨r, ho, hd⟩
      obtain ⟨e, hmem, _, _, _⟩ := walk_entry_at _ _ gs 0 (startIndex av ibc) j g hg hm
        (isEmpty_false_of_mem hkmem)
      exact ⟨e, by simpa using hmem⟩
  · rw [updateOrders_eq_daily snap ScheduleType.CUSTOM c av gs ibc hcond] at heq
    exact absurd heq (by simp)

/-- C9 witness: the single claimed group `[5]` yields the single entry. -/
theorem C9_entries_exactly_claimed_witness :
    ∃ e, ((0 : Nat), e) ∈ [((0 : Nat), entryA)] :=
  (C9_entries_exactly_claimed [docA] 0 [] [[5]] alwaysOpen [(0, entryA)]
      (by decide) 0).mpr
    ⟨[5], rfl, rfl, "a", docA.strippedData, by decide, by decide⟩

/-- C1 counterexample: the claim demands the counter start at −1 whenever no
currently-available cutoff-open group exists, so that a claimed group with no
open group before it receives a negative index.  With one surviving record
claiming the only group and `availableScheduleGroups` empty — no available
group exists at all — the source's `includesCutoff` is `false` (the
`.length > 0` conjunct fails), the counter starts at 0, and the claimed
group's entry receives the non-negative index 0. -/
theorem C1_counter_start_cex :
    updateOrders [docA] ScheduleType.CUSTOM 0 [] [[5]] alwaysOpen =
      OrdersState.custom [(0, entryA)] ∧ ¬ entryA.index < 0 := by
  decide

/-- C1 amended: the counter starts at −1 iff the available-group list is
non-empty and its first group is past cutoff (`includesCutoff`); otherwise —
including when no available group exists at all — it starts at 0.  Walking
the groups in order it is incremented exactly once per group matching an
available group, so each claimed entry carries `startIndex` plus the number
of available-matched groups preceding its position. -/
theorem C1_availability_counter (snap : List Doc) (c : Nat)
    (av gs : List (List Nat)) (ibc : List Nat → Bool)
    (entries : List (Nat × OrderEntry))
    (heq : updateOrders snap ScheduleType.CUSTOM c av gs ibc =
      OrdersState.custom entries) :
    (startIndex av ibc = -1 ↔ ∃ g0 rest, av = g0 :: rest ∧ ibc g0 = false) ∧
    ∀ p ∈ entries, p.2.index = startIndex av ibc +
      ((gs.take p.1).filter (fun x => matchesAvailable av x)).length := by
  constructor
  · cases av with
    | nil =>
      simp [startIndex]
    | cons g0 rest =>
      by_cases hibc : ibc g0 = true
      · rw [show startIndex (g0 :: rest) ibc = 0 from by simp [startIndex, hibc]]
        constructor
        · intro h
          exact absurd h (by decide)
        · rintro ⟨g1, rest1, he, hf⟩
          obtain ⟨rfl, rfl⟩ : g0 = g1 ∧ rest = rest1 := by
            injection he with h1 h2
            exact ⟨h1, h2⟩
          rw [hibc] at hf
          exact absurd hf (by decide)
      · have hs : startIndex (g0 :: rest) ibc = -1 := by
          simp [startIndex, hibc]
        rw [hs]
        constructor
        · intro _
          exact ⟨g0, rest, rfl, by simpa using hibc⟩
        · intro _
          rfl
  · intro p hp
    by_cases hcond : ScheduleType.CUSTOM = ScheduleType.CUSTOM ∧
      buildCollectionData snap c ≠ []
    · unfold updateOrders at heq
      rw [if_pos hcond] at heq
      injection heq with heq'
      subst heq'
      obtain ⟨_, g, hg, _, _, _, _, _, _, hidx⟩ := walk_mem_shape _ _ _ _ _ p hp
      simpa using hidx
    · rw [updateOrders_eq_daily snap ScheduleType.CUSTOM c av gs ibc hcond] at heq
      exact absurd heq (by simp)

/-- C1 witness: the amended counter law at the concrete claimed group. -/
theorem C1_availability_counter_witness :
    entryA.index = startIndex [] alwaysOpen +
      ((([[5]] : List (List Nat)).take 0).filter
        (fun x => matchesAvailable [] x)).length :=
  (C1_availability_counter [docA] 0 [] [[5]] alwaysOpen [(0, entryA)]
    (by decide)).2 (0, entryA) (by decide)

/-- C5: the reconciled output preserves the input group ordering: entry
positions are strictly increasing in emission order, each entry's `date` is
the group at its position, and — when the group sequence is ordered soonest
to farthest by first date — the home screen's chronological sort leaves the
entries exactly in that emission order. -/
theorem C5_order_preserved (snap : List Doc) (c : Nat)
    (av gs : List (List Nat)) (ibc : List Nat → Bool)
    (entries : List (Nat × OrderEntry))
    (heq : updateOrders snap ScheduleType.CUSTOM c av gs ibc =
      OrdersState.custom entries)
    (hmono : List.Pairwise (fun g1 g2 => g1.headD 0 < g2.headD 0) gs) :
    List.Pairwise (fun p q => p.1 < q.1) entries ∧
    (∀ p ∈ entries, gs.get? p.1 = some p.2.date) ∧
    getOrdersArrCustom entries = entries.map Prod.snd := by
  by_cases hcond : ScheduleType.CUSTOM = ScheduleType.CUSTOM ∧
    buildCollectionData snap c ≠ []
  case neg =>
    rw [updateOrders_eq_daily snap ScheduleType.CUSTOM c av gs ibc hcond] at heq
    exact absurd heq (by simp)
  unfold updateOrders at heq
  rw [if_pos hcond] at heq
  injection heq with heq'
  subst heq'
  have hpair := walk_pairwise (buildCollectionData snap c) av gs 0 (startIndex av ibc)
  have hdate : ∀ p ∈ walkGroups (buildCollectionData snap c) av gs 0
      (startIndex av ibc), gs.get? p.1 = some p.2.date := by
    intro p hp
    obtain ⟨_, g, hg, _, _, hd, _, _, _, _⟩ := walk_mem_shape _ _ _ _ _ p hp
    rw [hd]
    exact hg
  refine ⟨hpair, hdate, ?_⟩
  unfold getOrdersArrCustom
  apply List.Sorted.insertionSort_eq
  show List.Pairwise _ _
  rw [List.pairwise_map]
  refine List.Pairwise.imp_of_mem ?_ hpair
  intro p q hpmem hqmem hlt
  have hgp := hdate p hpmem
  have hgq := hdate q hqmem
  rw [List.get?_eq_getElem?] at hgp hgq
  obtain ⟨hplen, hpe⟩ := List.getElem?_eq_some_iff.mp hgp
  obtain ⟨hqlen, hqe⟩ := List.getElem?_eq_some_iff.mp hgq
  have hcmp := List.pairwise_iff_getElem.mp hmono p.1 q.1 hplen hqlen hlt
  rw [hpe, hqe] at hcmp
  exact le_of_lt hcmp

/-- C5 witness: the sort is the identity on the concrete one-entry output. -/
theorem C5_order_preserved_witness :
    getOrdersArrCustom [((0 : Nat), entryA)] = [((0 : Nat), entryA)].map Prod.snd :=
  (C5_order_preserved [docA] 0 [] [[5]] alwaysOpen [(0, entryA)] (by decide)
    (by simp)).2.2

/-- C4: under the engine's invariants — groups pairwise share no date, and
available (not-yet-ordered) groups contain no surviving record's date — a
claimed group never consumes a fresh counter value (its entry's index is the
ambient counter: `startIndex` plus the number of available-matched groups
before its position, never an increment of its own), the union of the claimed
entries' key lists is exactly the set of surviving record ids whose date lies
in some group, and no record id appears under two distinct entries. -/
theorem C4_claimed_partition (snap : List Doc) (c : Nat)
    (av gs : List (List Nat)) (ibc : List Nat → Bool)
    (entries : List (Nat × OrderEntry))
    (heq : updateOrders snap ScheduleType.CUSTOM c av gs ibc =
      OrdersState.custom entries)
    (hdisj : List.Pairwise (fun g1 g2 => ∀ x, x ∈ g1 → x ∉ g2) gs)
    (havail : ∀ g ∈ gs, matchesAvailable av g = true →
      ∀ p ∈ buildCollectionData snap c, p.2.date ∉ g) :
    (∀ p ∈ entries, p.2.index = startIndex av ibc +
      ((gs.take p.1).filter (fun x => matchesAvailable av x)).length) ∧
    (∀ k : String, (∃ p ∈ entries, k ∈ p.2.keys) ↔
      ∃ r, (k, r) ∈ buildCollectionData snap c ∧ ∃ g ∈ gs, r.date ∈ g) ∧
    (∀ p ∈ entries, ∀ q ∈ entries, p ≠ q → ∀ k ∈ p.2.keys, k ∉ q.2.keys) := by
  by_cases hcond : ScheduleType.CUSTOM = ScheduleType.CUSTOM ∧
    buildCollectionData snap c ≠ []
  case neg =>
    rw [updateOrders_eq_daily snap ScheduleType.CUSTOM c av gs ibc hcond] at heq
    exact absurd heq (by simp)
  unfold updateOrders at heq
  rw [if_pos hcond] at heq
  injection heq with heq'
  subst heq'
  have hpair := walk_pairwise (buildCollectionData snap c) av gs 0 (startIndex av ibc)
  refine ⟨?_, ?_, ?_⟩
  · intro p hp
    obtain ⟨_, g, hg, _, _, _, _, _, _, hidx⟩ := walk_mem_shape _ _ _ _ _ p hp
    simpa using hidx
  · intro k
    constructor
    · rintro ⟨p, hp, hk⟩
      obtain ⟨_, g, hg, _, _, _, _, hkeys, _, _⟩ := walk_mem_shape _ _ _ _ _ p hp
      rw [hkeys] at hk
      obtain ⟨r, ho, hd⟩ := (mem_relevantKeysFor _ _ _).mp hk
      exact ⟨r, lookupRecord_mem _ _ _ ho, g, List.get?_mem hg, hd⟩
    · rintro ⟨r, hmem, g0, hg0mem, hd⟩
      obtain ⟨j, hj⟩ := List.mem_iff_get?.mp hg0mem
      have hm : matchesAvailable av g0 = false := by
        by_cases hmb : matchesAvailable av g0 = true
        · exact absurd hd (havail g0 hg0mem hmb (k, r) hmem)
        · simpa using hmb
      have hlookup : lookupRecord (buildCollectionData snap c) k = some r :=
        lookupRecord_eq_some_of_mem _ (keys_nodup_buildCollectionData snap c) _ _ hmem
      have hkmem : k ∈ relevantKeysFor (buildCollectionData snap c) g0 :=
        (mem_relevantKeysFor _ _ _).mpr ⟨r, hlookup, hd⟩
      obtain ⟨e, hmem', _, hkeys', _⟩ := walk_entry_at _ _ gs 0 (startIndex av ibc)
        j g0 hj hm (isEmpty_false_of_mem hkmem)
      refine ⟨(j, e), by simpa using hmem', ?_⟩
      show k ∈ e.keys
      rw [hkeys']
      exact hkmem
  · intro p hp q hq hpq k hkp hkq
    have hne : p.1 ≠ q.1 :=
      List.Pairwise.forall (fun _ _ h => Ne.symm h)
        (hpair.imp fun h => Nat.ne_of_lt h) hp hq hpq
    obtain ⟨_, gp, hgp, _, _, _, _, hkeysp, _, _⟩ := walk_mem_shape _ _ _ _ _ p hp
    obtain ⟨_, gq, hgq, _, _, _, _, hkeysq, _, _⟩ := walk_mem_shape _ _ _ _ _ q hq
    rw [hkeysp] at hkp
    rw [hkeysq] at hkq
    obtain ⟨r1, ho1, hd1⟩ := (mem_relevantKeysFor _ _ _).mp hkp
    obtain ⟨r2, ho2, hd2⟩ := (mem_relevantKeysFor _ _ _).mp hkq
    obtain rfl : r1 = r2 := Option.some_inj.mp (ho1.symm.trans ho2)
    rw [Nat.sub_zero] at hgp hgq
    rw [List.get?_eq_getElem?] at hgp hgq
    obtain ⟨hplen, hpe⟩ := List.getElem?_eq_some_iff.mp hgp
    obtain ⟨hqlen, hqe⟩ := List.getElem?_eq_some_iff.mp hgq
    rcases Nat.lt_or_ge p.1 q.1 with hlt | hge
    · have hdis := List.pairwise_iff_getElem.mp hdisj p.1 q.1 hplen hqlen hlt
      rw [hpe, hqe] at hdis
      exact hdis r1.date hd1 hd2
    · have hlt' : q.1 < p.1 := by omega
      have hdis := List.pairwise_iff_getElem.mp hdisj q.1 p.1 hqlen hplen hlt'
      rw [hpe, hqe] at hdis
      exact hdis r1.date hd2 hd1

/-- C4 witness: the single surviving record is claimed under the one group. -/
theorem C4_claimed_partition_witness :
    ∃ p ∈ [((0 : Nat), entryA)], "a" ∈ p.2.keys :=
  ((C4_claimed_partition [docA] 0 [] [[5]] alwaysOpen [(0, entryA)] (by decide)
      (by simp) (by decide)).2.1 "a").mpr
    ⟨docA.strippedData, by decide, [5], by decide, by decide⟩

end MobileApp
